import Mathlib

/-!
Verification development for the `dp-dau-mau` ingest-and-release engine
(`src/dp_core/`): hashing and salt rotation, the exact set sketch backend,
the window manager, the ledger/erasure state, the privacy accountant and
the noise mechanisms, shallowly embedded from the Python source.

Conventions of the embedding:
* bytes are `List Nat` with entries below 256;
* Python `float` arithmetic is modelled over `ℚ`; the transcendental
  helpers `math.log` and `math.sqrt`, and the two pseudo-random draws of a
  freshly seeded `random.Random`, are passed in as explicit function
  parameters (`Samplers`), so every operation is a pure function of its
  inputs exactly as the code is;
* fallible Python code (raised exceptions) returns `Except PyErr`;
* strings hashed by the code are ASCII, so UTF-8 encoding is the list of
  code points.
-/

/-- Python exception kinds raised by the embedded code paths. -/
inductive PyErr where
  /-- `TypeError`, e.g. a keyword call that does not match a dataclass. -/
  | typeError
  /-- `AttributeError`: attribute lookup failed on an object. -/
  | attributeError
  /-- `ValueError` raised by validation in the mechanisms and the pipeline. -/
  | valueError
  /-- `BudgetExceeded(message)` from `pipeline.py`. -/
  | budgetExceeded (msg : String)
  /-- `RuntimeError` from `PipelineManager._build_sketch_factory`. -/
  | runtimeError
deriving DecidableEq, Repr

/-- UTF-8 encoding of an ASCII string: the list of code points. -/
def strBytes (s : String) : List Nat :=
  s.data.map Char.toNat

/-! ## SHA-256 (FIPS 180-4), over `Nat` with explicit reduction mod `2^32` -/

/-- Modulus for 32-bit words. -/
def M32 : Nat := 4294967296

/-- Addition modulo `2^32`. -/
def add32 (a b : Nat) : Nat := (a + b) % M32

/-- Rotate a 32-bit word right by `n` positions. -/
def rotr32 (n x : Nat) : Nat :=
  ((x >>> n) ||| (x <<< (32 - n))) % M32

/-- The 64 round constants of SHA-256, written in decimal. -/
def shaK : List Nat :=
  [1116352408, 1899447441, 3049323471, 3921009573, 961987163,
   1508970993, 2453635748, 2870763221, 3624381080, 310598401,
   607225278, 1426881987, 1925078388, 2162078206, 2614888103,
   3248222580, 3835390401, 4022224774, 264347078, 604807628,
   770255983, 1249150122, 1555081692, 1996064986, 2554220882,
   2821834349, 2952996808, 3210313671, 3336571891, 3584528711,
   113926993, 338241895, 666307205, 773529912, 1294757372,
   1396182291, 1695183700, 1986661051, 2177026350, 2456956037,
   2730485921, 2820302411, 3259730800, 3345764771, 3516065817,
   3600352804, 4094571909, 275423344, 430227734, 506948616,
   659060556, 883997877, 958139571, 1322822218, 1537002063,
   1747873779, 1955562222, 2024104815, 2227730452, 2361852424,
   2428436474, 2756734187, 3204031479, 3329325298]

/-- Starting hash state of SHA-256, written in decimal. -/
def shaH0 : List Nat :=
  [1779033703, 3144134277, 1013904242,
   2773480762, 1359893119, 2600822924,
   528734635, 1541459225]

/-- Small sigma 0. -/
def ssig0 (x : Nat) : Nat := rotr32 7 x ^^^ rotr32 18 x ^^^ (x >>> 3)

/-- Small sigma 1. -/
def ssig1 (x : Nat) : Nat := rotr32 17 x ^^^ rotr32 19 x ^^^ (x >>> 10)

/-- Big sigma 0. -/
def bsig0 (x : Nat) : Nat := rotr32 2 x ^^^ rotr32 13 x ^^^ rotr32 22 x

/-- Big sigma 1. -/
def bsig1 (x : Nat) : Nat := rotr32 6 x ^^^ rotr32 11 x ^^^ rotr32 25 x

/-- Ch function. -/
def shaCh (x y z : Nat) : Nat := (x &&& y) ^^^ ((x ^^^ (M32 - 1)) &&& z)

/-- Majority function of the compression rounds. -/
def shaMaj (x y z : Nat) : Nat :=
  (x &&& y) ^^^ ((x &&& z) ^^^ (y &&& z))

/-- Pack four bytes big-endian into one 32-bit word. -/
def word32 (a b c d : Nat) : Nat := ((a * 256 + b) * 256 + c) * 256 + d

/-- Split a 64-byte block into sixteen 32-bit words. -/
def blockWords : List Nat → List Nat
  | a :: b :: c :: d :: rest => word32 a b c d :: blockWords rest
  | _ => []

/-- Extend sixteen schedule words to 64.  `recent` holds the last sixteen
words, most recent first; `out` accumulates all words in reverse. -/
def extendWords : Nat → List Nat → List Nat → List Nat
  | 0, _, out => out.reverse
  | n + 1, recent, out =>
    let w2 := recent.getD 1 0
    let w7 := recent.getD 6 0
    let w15 := recent.getD 14 0
    let w16 := recent.getD 15 0
    let w := (ssig1 w2 + w7 + ssig0 w15 + w16) % M32
    extendWords n ((w :: recent).take 16) (w :: out)

/-- The 64-word message schedule of one block. -/
def schedule (ws : List Nat) : List Nat :=
  extendWords 48 ws.reverse ws.reverse

/-- Working state of the compression function. -/
structure ShaState where
  a : Nat
  b : Nat
  c : Nat
  d : Nat
  e : Nat
  f : Nat
  g : Nat
  h : Nat

/-- One round of the SHA-256 compression function. -/
def shaRound (st : ShaState) (kw : Nat × Nat) : ShaState :=
  let t1 := (st.h + bsig1 st.e + shaCh st.e st.f st.g + kw.1 + kw.2) % M32
  let t2 := (bsig0 st.a + shaMaj st.a st.b st.c) % M32
  { a := add32 t1 t2, b := st.a, c := st.b, d := st.c,
    e := add32 st.d t1, f := st.e, g := st.f, h := st.g }

/-- Compress one 64-byte block into the running hash value. -/
def compress (hv : List Nat) (block : List Nat) : List Nat :=
  let ws := schedule (blockWords block)
  let init : ShaState :=
    { a := hv.getD 0 0, b := hv.getD 1 0, c := hv.getD 2 0, d := hv.getD 3 0,
      e := hv.getD 4 0, f := hv.getD 5 0, g := hv.getD 6 0, h := hv.getD 7 0 }
  let st := (shaK.zip ws).foldl shaRound init
  [add32 (hv.getD 0 0) st.a, add32 (hv.getD 1 0) st.b,
   add32 (hv.getD 2 0) st.c, add32 (hv.getD 3 0) st.d,
   add32 (hv.getD 4 0) st.e, add32 (hv.getD 5 0) st.f,
   add32 (hv.getD 6 0) st.g, add32 (hv.getD 7 0) st.h]

/-- SHA-256 padding: append `0x80`, zeros, and the 64-bit bit length. -/
def shaPad (msg : List Nat) : List Nat :=
  let l := msg.length
  let zeros := (64 - (l + 9) % 64) % 64
  let bits := l * 8
  msg ++ [0x80] ++ List.replicate zeros 0 ++
    [bits >>> 56 % 256, bits >>> 48 % 256, bits >>> 40 % 256, bits >>> 32 % 256,
     bits >>> 24 % 256, bits >>> 16 % 256, bits >>> 8 % 256, bits % 256]

/-- Split the padded message into 64-byte blocks (`fuel` bounds the
recursion; it is called with the list length, which always suffices). -/
def chunk64 : Nat → List Nat → List (List Nat)
  | 0, _ => []
  | _, [] => []
  | fuel + 1, l => l.take 64 :: chunk64 fuel (l.drop 64)

/-- Serialize eight 32-bit words into 32 bytes big-endian. -/
def wordsToBytes (ws : List Nat) : List Nat :=
  ws.foldr (fun w acc => (w >>> 24 % 256) :: (w >>> 16 % 256) :: (w >>> 8 % 256) :: (w % 256) :: acc) []

/-- SHA-256 of a byte string. -/
def sha256 (msg : List Nat) : List Nat :=
  let padded := shaPad msg
  wordsToBytes ((chunk64 padded.length padded).foldl compress shaH0)

/-! ## HMAC-SHA-256 (`hmac.new(key, msg, sha256).digest()`) -/

/-- HMAC-SHA-256 of a message under a key. -/
def hmacSha256 (key msg : List Nat) : List Nat :=
  let k0 := if key.length > 64 then sha256 key else key
  let k1 := k0 ++ List.replicate (64 - k0.length) 0
  let inner := sha256 ((k1.map (fun b => b ^^^ 0x36)) ++ msg)
  sha256 ((k1.map (fun b => b ^^^ 0x5c)) ++ inner)

/-- Interpret a byte list as a big-endian unsigned integer
(`int.from_bytes(-, "big", signed=False)`). -/
def beNat (bs : List Nat) : Nat :=
  bs.foldl (fun acc b => acc * 256 + b) 0

/-! ## Python `datetime.date`: ordinals, ISO format, predecessor -/

/-- Gregorian leap year predicate (as in Python's `datetime`). -/
def isLeap (y : Nat) : Bool := y % 4 == 0 && (y % 100 != 0 || y % 400 == 0)

/-- Length of a month. -/
def daysInMonth (y m : Nat) : Nat :=
  if m == 2 then (if isLeap y then 29 else 28)
  else if m == 4 || m == 6 || m == 9 || m == 11 then 30
  else 31

/-- A calendar date, mirroring `datetime.date`. -/
structure Date where
  year : Nat
  month : Nat
  day : Nat
deriving DecidableEq, Repr

/-- Days in all years strictly before `y` (Python `_days_before_year`). -/
def daysBeforeYear (y : Nat) : Nat :=
  (y - 1) * 365 + (y - 1) / 4 - (y - 1) / 100 + (y - 1) / 400

/-- Days in year `y` strictly before month `m` (Python `_days_before_month`). -/
def daysBeforeMonth (y m : Nat) : Nat :=
  (List.range (m - 1)).foldl (fun acc i => acc + daysInMonth y (i + 1)) 0

/-- Python `date.toordinal()`: day number in the proleptic Gregorian
calendar with `0001-01-01` as ordinal 1. -/
def toOrdinal (d : Date) : Nat :=
  daysBeforeYear d.year + daysBeforeMonth d.year d.month + d.day

/-- Zero-pad a numeral to two digits. -/
def pad2 (n : Nat) : String := if n < 10 then "0" ++ toString n else toString n

/-- Zero-pad a numeral to four digits. -/
def pad4 (n : Nat) : String :=
  if n < 10 then "000" ++ toString n
  else if n < 100 then "00" ++ toString n
  else if n < 1000 then "0" ++ toString n
  else toString n

/-- Python `date.isoformat()`: `YYYY-MM-DD`. -/
def isoformat (d : Date) : String :=
  pad4 d.year ++ "-" ++ pad2 d.month ++ "-" ++ pad2 d.day

/-- Python `day.strftime("%Y-%m")`, the accountant's period key. -/
def month_key (d : Date) : String := pad4 d.year ++ "-" ++ pad2 d.month

/-- The previous calendar day (`day - timedelta(days=1)`). -/
def prevDay (d : Date) : Date :=
  if d.day > 1 then { d with day := d.day - 1 }
  else if d.month > 1 then
    { d with month := d.month - 1, day := daysInMonth d.year (d.month - 1) }
  else { year := d.year - 1, month := 12, day := 31 }

/-- The `w` consecutive days ending at `endDay`, oldest first: exactly the
days visited by the `while day <= end` loop of `WindowManager.get_mau`
starting from `end - timedelta(days=window_days - 1)` (empty for `w = 0`). -/
def windowDays : Date → Nat → List Date
  | _, 0 => []
  | endDay, w + 1 => windowDays (prevDay endDay) w ++ [endDay]

/-! ## Configuration (the fields of `AppConfig` consumed by the core) -/

/-- The configuration fields of `AppConfig` that the embedded core reads.
Numeric `float` fields are rationals; see the module comment. -/
structure Config where
  hash_salt_secret : String
  hash_salt_rotation_days : Nat
  epsilon_dau : ℚ
  epsilon_mau : ℚ
  delta : ℚ
  w_bound : Nat
  dau_budget_total : ℚ
  mau_budget_total : ℚ
  default_seed : Nat
  mau_window_days : Nat

/-- The defaults of `config.py` (`sketch.impl` is handled separately by the
factory embedding; the secret below stands for a concrete deployment value). -/
def defaultConfig : Config :=
  { hash_salt_secret := "secret"
    hash_salt_rotation_days := 30
    epsilon_dau := 3 / 10
    epsilon_mau := 1 / 2
    delta := 1 / 1000000
    w_bound := 2
    dau_budget_total := 3
    mau_budget_total := 7 / 2
    default_seed := 20251009
    mau_window_days := 30 }

/-! ## Hashing and salt rotation (`hashing.py`) -/

/-- Value of one base64 alphabet character. -/
def b64Val (c : Char) : Nat :=
  if 'A' ≤ c && c ≤ 'Z' then c.toNat - 65
  else if 'a' ≤ c && c ≤ 'z' then c.toNat - 97 + 26
  else if '0' ≤ c && c ≤ '9' then c.toNat - 48 + 52
  else if c == '+' then 62
  else if c == '/' then 63
  else 0

/-- Streaming base64 decoder (`base64.b64decode` on well-formed input):
accumulate six bits per alphabet character, emit completed bytes, ignore
padding. -/
def b64decode (cs : List Char) : List Nat :=
  let step := fun (st : Nat × Nat × List Nat) (c : Char) =>
    if c == '=' then st
    else
      let acc := st.1 * 64 + b64Val c
      let bits := st.2.1 + 6
      if bits ≥ 8 then
        (acc % 2 ^ (bits - 8), bits - 8, st.2.2 ++ [acc >>> (bits - 8)])
      else (acc, bits, st.2.2)
  (cs.foldl step (0, 0, [])).2.2

/-- `hashing._ensure_secret_bytes`: a `b64:` prefix marks base64-encoded
bytes, otherwise the raw UTF-8 bytes are the key. -/
def ensure_secret_bytes (secret : String) : List Nat :=
  match secret.data with
  | 'b' :: '6' :: '4' :: ':' :: rest => b64decode rest
  | _ => strBytes secret

/-- `SaltManager.salt_for_day`: HMAC of `"{iso}::{ordinal // max(R,1)}"`
under the secret.  Note the message includes the ISO date itself. -/
def salt_for_day (secret : String) (rotationDays : Nat) (day : Date) : List Nat :=
  let rotationEpoch := toOrdinal day / max rotationDays 1
  let message := strBytes (isoformat day ++ "::" ++ toString rotationEpoch)
  hmacSha256 (ensure_secret_bytes secret) message

/-- `hashing.hash_user_id`: HMAC of the user id under the day's salt. -/
def hash_user_id (cfg : Config) (userId : String) (day : Date) : List Nat :=
  hmacSha256 (salt_for_day cfg.hash_salt_secret cfg.hash_salt_rotation_days day)
    (strBytes userId)

/-- `hashing.hash_user_root`: HMAC of the user id under the root secret. -/
def hash_user_root (cfg : Config) (userId : String) : List Nat :=
  hmacSha256 (ensure_secret_bytes cfg.hash_salt_secret) (strBytes userId)

/-! ## The exact set sketch backend (`sketches/set_impl.py`)

The claims under verification all run the pipeline with the `set` backend,
so the embedding carries that backend.  Python dispatches sketch methods by
attribute lookup; `Sketch.callBinary` below models that lookup over the
method table of `SetSketch`, returning `AttributeError` for a name the
class does not define. -/

/-- A sketch of the `set` backend: the literal key set, as a
duplicate-free list. -/
inductive Sketch where
  | set (keys : List (List Nat))
deriving DecidableEq, Repr

/-- Insert into a Python `set` modelled as a duplicate-free list. -/
def setInsert (l : List (List Nat)) (k : List Nat) : List (List Nat) :=
  if k ∈ l then l else l ++ [k]

/-- `set.discard`. -/
def setRemove (l : List (List Nat)) (k : List Nat) : List (List Nat) :=
  l.filter (fun x => x ≠ k)

/-- `SetSketch.add`. -/
def Sketch.add : Sketch → List Nat → Sketch
  | .set ks, k => .set (setInsert ks k)

/-- `SetSketch.union` (in-place `self._keys.update(other._keys)`). -/
def Sketch.unionWith : Sketch → Sketch → Sketch
  | .set ks, .set other => .set (other.foldl setInsert ks)

/-- `SetSketch.a_not_b`. -/
def Sketch.aNotB : Sketch → Sketch → Sketch
  | .set ks, .set other => .set (ks.filter (fun k => k ∉ other))

/-- `SetSketch.estimate`: the exact cardinality. -/
def Sketch.estimate : Sketch → ℚ
  | .set ks => ks.length

/-- The binary methods `SetSketch` defines (`set_impl.py` defines
`union` and `a_not_b`; it defines no `merge`). -/
def setSketchBinaryMethods : List (String × (Sketch → Sketch → Sketch)) :=
  [("union", Sketch.unionWith), ("a_not_b", Sketch.aNotB)]

/-- Python attribute lookup plus call for a binary sketch method: absent
names raise `AttributeError`. -/
def Sketch.callBinary (self : Sketch) (name : String) (other : Sketch) :
    Except PyErr Sketch :=
  match setSketchBinaryMethods.lookup name with
  | some f => .ok (f self other)
  | none => .error .attributeError

/-- A fresh sketch from the factory (`sketch_factory.create()` with the
`set` backend). -/
def createSketch : Sketch := .set []

/-! ## Ledger rows and pipeline state -/

/-- A row of `activity_log` (`ledger.ActivityEntry`); the JSON metadata
column is not read back by the embedded operations and is omitted. -/
structure ActivityRow where
  day : String
  user_key : List Nat
  user_root : List Nat
  op : String
deriving DecidableEq, Repr

/-- A row of `erasure_log` (`ledger.ErasureEntry` as stored: the `days`
list is serialized by value through `json.dumps`). -/
structure ErasureRow where
  erasure_id : Nat
  user_root : List Nat
  days : List String
  pending : Bool
deriving DecidableEq, Repr

/-- A row of the accountant's `releases` table. -/
structure ReleaseRow where
  metric : String
  day : String
  period : String
  epsilon : ℚ
  delta : ℚ
  mechanism : String
  seed : Nat
deriving DecidableEq, Repr

/-- A row of the accountant's `rdp_releases` table. -/
structure RdpRow where
  metric : String
  day : String
  period : String
  alpha : ℚ
  eps : ℚ
deriving DecidableEq, Repr

/-- A cached `DaySnapshot` of `windows.py`. -/
structure Snapshot where
  sketch : Sketch
  keys : List (List Nat)
  dirty : Bool
deriving DecidableEq, Repr

/-- The mutable state of one `PipelineManager` with its ledger, window
manager and accountant.  `heap` holds the Python list objects reachable
from callers' `EventRecord.metadata["days"]` entries, indexed by
reference, so in-place mutation and aliasing are observable. -/
structure PipeState where
  heap : List (List String)
  ledger : List ActivityRow
  erasures : List ErasureRow
  snapshots : List (String × Snapshot)
  releases : List ReleaseRow
  rdp : List RdpRow
deriving DecidableEq, Repr

/-- Dereference a heap list object. -/
def heapGet (h : List (List String)) (r : Nat) : List String := h.getD r []

/-- Mutate a heap list object in place. -/
def heapSet (h : List (List String)) (r : Nat) (v : List String) :
    List (List String) := h.set r v

/-- Allocate a fresh list object. -/
def heapAlloc (h : List (List String)) (v : List String) :
    List (List String) × Nat := (h ++ [v], h.length)

/-- The empty pipeline state over a given caller-side heap. -/
def initState (heap : List (List String)) : PipeState :=
  { heap := heap, ledger := [], erasures := [], snapshots := [],
    releases := [], rdp := [] }

/-! ## Window manager (`windows.py`) -/

/-- Association-list update for the snapshot cache. -/
def snapStore (snaps : List (String × Snapshot)) (day : String) (s : Snapshot) :
    List (String × Snapshot) :=
  if snaps.any (fun p => p.1 = day) then
    snaps.map (fun p => if p.1 = day then (day, s) else p)
  else snaps ++ [(day, s)]

/-- `WindowManager.mark_dirty`: set the dirty bit if the day is cached. -/
def mark_dirty (snaps : List (String × Snapshot)) (day : String) :
    List (String × Snapshot) :=
  snaps.map (fun p => if p.1 = day then (p.1, { p.2 with dirty := true }) else p)

/-- `mark_dirty` lifted to the pipeline state. -/
def markDirtySt (st : PipeState) (day : String) : PipeState :=
  { st with snapshots := mark_dirty st.snapshots day }

/-- `Ledger.fetch_day_events`: the day's `(op, user_key)` pairs ordered by
insertion (`ORDER BY id ASC`). -/
def fetch_day_events (ledger : List ActivityRow) (day : String) :
    List (String × List Nat) :=
  (ledger.filter (fun r => r.day = day)).map (fun r => (r.op, r.user_key))

/-- `Ledger.days_for_user`: distinct days of a root, ascending. -/
def days_for_user (ledger : List ActivityRow) (root : List Nat) : List String :=
  (((ledger.filter (fun r => r.user_root = root)).map (fun r => r.day)).dedup).mergeSort
    (fun a b => a ≤ b)

/-- `Ledger.pending_erasures`: pending rows in `id ASC` order. -/
def pending_erasures (ers : List ErasureRow) : List ErasureRow :=
  ers.filter (fun e => e.pending)

/-- `WindowManager._build_snapshot`: fold the day's events over a working
set (`+` adds, `-` discards), then build a fresh sketch holding every
surviving key, cache it clean, and return it. -/
def build_snapshot (st : PipeState) (day : String)
    (events : List (String × List Nat)) : Snapshot × PipeState :=
  let active := events.foldl
    (fun acc e =>
      if e.1 = "+" then setInsert acc e.2
      else if e.1 = "-" then setRemove acc e.2
      else acc) []
  let sketch := active.foldl Sketch.add createSketch
  let snap : Snapshot := { sketch := sketch, keys := active, dirty := false }
  (snap, { st with snapshots := snapStore st.snapshots day snap })

/-- `WindowManager.get_snapshot`: rebuild from the ledger when the day is
missing from the cache or dirty. -/
def get_snapshot (st : PipeState) (day : String) : Snapshot × PipeState :=
  match st.snapshots.lookup day with
  | some snap => if snap.dirty then build_snapshot st day (fetch_day_events st.ledger day) else (snap, st)
  | none => build_snapshot st day (fetch_day_events st.ledger day)

/-- `WindowManager.get_dau`. -/
def get_dau (st : PipeState) (day : String) :
    (ℚ × Sketch × List (List Nat)) × PipeState :=
  let (snap, st') := get_snapshot st day
  ((snap.sketch.estimate, snap.sketch, snap.keys), st')

/-- The loop body sequence of `WindowManager.get_mau`: for each day of the
window fetch the snapshot and invoke the sketch's `merge` attribute (this
is what the source calls; `SetSketch` defines `union` but no `merge`). -/
def mauLoop (st : PipeState) (days : List Date) (acc : Sketch) :
    Except PyErr (Sketch × PipeState) :=
  match days with
  | [] => .ok (acc, st)
  | d :: rest =>
    let (snap, st') := get_snapshot st (isoformat d)
    match acc.callBinary "merge" snap.sketch with
    | .ok acc' => mauLoop st' rest acc'
    | .error e => .error e

/-- `WindowManager.get_mau`: union a fresh sketch over the `W` days ending
at `end_day` and return its estimate. -/
def get_mau (st : PipeState) (endDay : Date) (windowDays' : Nat) :
    Except PyErr ((ℚ × Sketch) × PipeState) :=
  match mauLoop st (windowDays endDay windowDays') createSketch with
  | .ok (u, st') => .ok ((u.estimate, u), st')
  | .error e => .error e

/-! ## Privacy accountant (`privacy_accountant.py`) -/

/-- The budget tolerance `1e-9` of `can_release`. -/
def budgetTol : ℚ := 1 / 1000000000

/-- Sum of the `epsilon` column over releases of one metric and period
(the SQL `SELECT COALESCE(SUM(epsilon), 0) ... WHERE metric = ? AND period = ?`). -/
def sumEps (rels : List ReleaseRow) (metric period : String) : ℚ :=
  ((rels.filter (fun r => r.metric = metric ∧ r.period = period)).map
    (fun r => r.epsilon)).sum

/-- `PrivacyAccountant.spent_budget`: naive composition over the month of
`day`. -/
def spent_budget (rels : List ReleaseRow) (metric : String) (day : Date) : ℚ :=
  sumEps rels metric (month_key day)

/-- `PrivacyAccountant.can_release`. -/
def can_release (rels : List ReleaseRow) (metric : String) (epsilon : ℚ)
    (day : Date) (cap : ℚ) : Bool :=
  spent_budget rels metric day + epsilon ≤ cap + budgetTol

/-- `PrivacyAccountant.remaining_budget`. -/
def remaining_budget (rels : List ReleaseRow) (metric : String) (day : Date)
    (cap : ℚ) : ℚ :=
  max 0 (cap - spent_budget rels metric day)

/-- `PrivacyAccountant.reset_month`: purge releases of that metric and
month (the companion `rdp_releases` purge is analogous). -/
def reset_month (rels : List ReleaseRow) (metric month : String) :
    List ReleaseRow :=
  rels.filter (fun r => ¬(r.metric = metric ∧ r.period = month))

/-- Group-by-alpha sums of the RDP rows of one metric and period, as an
association list keyed by alpha (the SQL `GROUP BY alpha`). -/
def rdpGroupSums (rows : List RdpRow) (metric period : String) :
    List (ℚ × ℚ) :=
  (rows.filter (fun r => r.metric = metric ∧ r.period = period)).foldl
    (fun acc r =>
      if acc.any (fun p => p.1 = r.alpha) then
        acc.map (fun p => if p.1 = r.alpha then (p.1, p.2 + r.eps) else p)
      else acc ++ [(r.alpha, r.eps)]) []

/-- `PrivacyAccountant.spent_rdp`: the grouped sums, with a `setdefault`
of 0 for each requested order not already present. -/
def spent_rdp (rows : List RdpRow) (metric : String) (day : Date)
    (orders : List ℚ) : List (ℚ × ℚ) :=
  orders.foldl
    (fun acc o => if acc.any (fun p => p.1 = o) then acc else acc ++ [(o, 0)])
    (rdpGroupSums rows metric (month_key day))

/-- The scan of `PrivacyAccountant._best_from_curve`: walk the curve
points, skip orders `≤ 1`, convert each to `ε_α + logTerm/(α-1)` and keep
the strictly smallest conversion with its order. -/
def bestLoop (logTerm : ℚ) : List (ℚ × ℚ) → Option (ℚ × ℚ) → Option (ℚ × ℚ)
  | [], acc => acc
  | (a, v) :: rest, acc =>
    if a ≤ 1 then bestLoop logTerm rest acc
    else
      let e := v + logTerm / (a - 1)
      match acc with
      | none => bestLoop logTerm rest (some (e, a))
      | some (be, bo) =>
        if e < be then bestLoop logTerm rest (some (e, a))
        else bestLoop logTerm rest (some (be, bo))

/-- `PrivacyAccountant._best_from_curve`.  `logTerm` stands for the float
`math.log(1.0 / delta)` the code computes once before the scan. -/
def best_from_curve (delta logTerm : ℚ) (points : List (ℚ × ℚ)) :
    Option (ℚ × ℚ) :=
  if delta ≤ 0 ∨ 1 ≤ delta then none
  else bestLoop logTerm points none

/-- `PrivacyAccountant.best_rdp_epsilon`: minimise the (ε, α) conversion
over the month's RDP curve extended by the requested orders.  The code
returns the pair `(None, None)` when the scan finds nothing; the embedding
returns `none`. -/
def best_rdp_epsilon (rows : List RdpRow) (metric : String) (day : Date)
    (delta logTerm : ℚ) (orders : List ℚ) : Option (ℚ × ℚ) :=
  best_from_curve delta logTerm (spent_rdp rows metric day orders)

/-! ## Noise mechanisms (`dp_mechanisms.py`) and seeds (`pipeline._seed_for`) -/

/-- The transcendental float helpers and the seeded random draws, passed
explicitly: `mlog` is `math.log`, `msqrt` is `math.sqrt`, `udraw seed` is
the first `rng.random()` and `gdraw seed` the standardized first
`rng.gauss` draw of `random.Random(seed)`. -/
structure Samplers where
  mlog : ℚ → ℚ
  msqrt : ℚ → ℚ
  udraw : Nat → ℚ
  gdraw : Nat → ℚ

/-- `math.copysign` over ℚ (sign of zero taken positive). -/
def copysignQ (x s : ℚ) : ℚ := if s < 0 then -|x| else |x|

/-- `pipeline._seed_for`: the first 8 bytes of
`SHA-256("{metric}:{day.isoformat()}:{default_seed}")` as an unsigned
big-endian integer. -/
def seed_for (metric : String) (day : Date) (defaultSeed : Nat) : Nat :=
  beNat ((sha256 (strBytes (metric ++ ":" ++ isoformat day ++ ":" ++
    toString defaultSeed))).take 8)

/-- A `MechanismResult` of `dp_mechanisms.py`. -/
structure MechanismResult where
  value : ℚ
  noisy_value : ℚ
  mechanism : String
  epsilon : ℚ
  delta : ℚ
  ci_lo : ℚ
  ci_hi : ℚ
  seed : Nat

/-- `dp_mechanisms.sample_laplace` given the first uniform draw of the
seeded generator. -/
def sample_laplace (S : Samplers) (scale : ℚ) (seed : Nat) : ℚ :=
  let u := (S.udraw seed - 1 / 2)
  (-scale) * copysignQ (S.mlog (1 - 2 * |u|)) u

/-- `dp_mechanisms.laplace_mechanism` (`alpha = 0.05`). -/
def laplace_mechanism (S : Samplers) (value sensitivity epsilon : ℚ)
    (seed : Nat) : Except PyErr MechanismResult :=
  if epsilon ≤ 0 then .error .valueError
  else
    let scale := sensitivity / epsilon
    let noise := sample_laplace S scale seed
    let noisy := value + noise
    let z := -scale * S.mlog (1 / 40)
    .ok { value := value, noisy_value := noisy, mechanism := "laplace",
          epsilon := epsilon, delta := 0, ci_lo := noisy - z,
          ci_hi := noisy + z, seed := seed }

/-- `dp_mechanisms.gaussian_mechanism`. -/
def gaussian_mechanism (S : Samplers) (value sensitivity epsilon delta : ℚ)
    (seed : Nat) : Except PyErr MechanismResult :=
  if epsilon ≤ 0 ∨ delta ≤ 0 ∨ 1 ≤ delta then .error .valueError
  else
    let sigma := S.msqrt (2 * S.mlog (5 / 4 / delta)) * sensitivity / epsilon
    let noise := S.gdraw seed * sigma
    let noisy := value + noise
    let z : ℚ := 1959963984540054 / 1000000000000000
    .ok { value := value, noisy_value := noisy, mechanism := "gaussian",
          epsilon := epsilon, delta := delta, ci_lo := noisy - z * sigma,
          ci_hi := noisy + z * sigma, seed := seed }

/-! ## Pipeline orchestrator (`pipeline.py`) -/

/-- Per-metric ε of `PipelineManager._release`. -/
def epsFor (cfg : Config) (metric : String) : ℚ :=
  if metric = "dau" then cfg.epsilon_dau else cfg.epsilon_mau

/-- Per-metric δ of `PipelineManager._release`. -/
def deltaFor (cfg : Config) (metric : String) : ℚ :=
  if metric = "mau" then cfg.delta else 0

/-- Per-metric monthly cap of `PipelineManager._release`. -/
def capFor (cfg : Config) (metric : String) : ℚ :=
  if metric = "dau" then cfg.dau_budget_total else cfg.mau_budget_total

/-- `PipelineManager._release`: gate on `can_release`, derive the seed,
run the mechanism selected by δ, and record the release only after the
mechanism returned.  The pair carries the raised-or-returned outcome and
the accountant's release log after the call. -/
def release_op (S : Samplers) (cfg : Config) (rels : List ReleaseRow)
    (metric : String) (day : Date) (baseValue sensitivity : ℚ) :
    Except PyErr MechanismResult × List ReleaseRow :=
  let epsilon := epsFor cfg metric
  let delta := deltaFor cfg metric
  let cap := capFor cfg metric
  if can_release rels metric epsilon day cap then
    let seed := seed_for metric day cfg.default_seed
    let result :=
      if delta > 0 then
        gaussian_mechanism S baseValue sensitivity epsilon delta seed
      else
        laplace_mechanism S baseValue sensitivity epsilon seed
    match result with
    | .ok r =>
      (Except.ok r,
       rels ++ [{ metric := metric, day := isoformat day,
                  period := month_key day, epsilon := epsilon, delta := delta,
                  mechanism := r.mechanism, seed := seed }])
    | .error e => (Except.error e, rels)
  else
    (Except.error (.budgetExceeded (metric ++ " budget exhausted for " ++ isoformat day)),
     rels)

/-- The in-memory `ErasureEntry` object constructed by `ingest_event`; its
`days` field is a reference to a heap list. -/
structure ErasureObj where
  user_root : List Nat
  daysRef : Nat
  pending : Bool
deriving DecidableEq, Repr

/-- An `EventRecord`.  `metadataDays` is the `metadata["days"]` entry: a
reference to a caller-owned heap list when present.  (Only the `days`
entry of the metadata dict is ever consulted by the core.) -/
structure Event where
  user_id : String
  op : String
  day : Date
  metadataDays : Option Nat
deriving DecidableEq, Repr

/-- `PipelineManager.ingest_event`: validate the op, hash, append the
activity row, dirty the day, and on `-` record an erasure over the
affected days (the caller's `metadata["days"]` object when truthy, else
the ledger's days for the root), appending the event day to that list in
place when missing.  Returns the outcome, the new state, and the
`ErasureEntry` object constructed (if any). -/
def ingest_event (cfg : Config) (st : PipeState) (e : Event) :
    Except PyErr Unit × PipeState × Option ErasureObj :=
  if e.op ≠ "+" ∧ e.op ≠ "-" then (Except.error .valueError, st, none)
  else
    let dayStr := isoformat e.day
    let userKey := hash_user_id cfg e.user_id e.day
    let userRoot := hash_user_root cfg e.user_id
    let st1 := { st with ledger := st.ledger ++
      [{ day := dayStr, user_key := userKey, user_root := userRoot, op := e.op }] }
    let st2 := markDirtySt st1 dayStr
    if e.op = "-" then
      let (st3, ref) :=
        match e.metadataDays with
        | some r =>
          if heapGet st2.heap r = [] then
            let (h, r2) := heapAlloc st2.heap (days_for_user st2.ledger userRoot)
            ({ st2 with heap := h }, r2)
          else (st2, r)
        | none =>
          let (h, r2) := heapAlloc st2.heap (days_for_user st2.ledger userRoot)
          ({ st2 with heap := h }, r2)
      let st4 :=
        if dayStr ∈ heapGet st3.heap ref then st3
        else { st3 with heap := heapSet st3.heap ref (heapGet st3.heap ref ++ [dayStr]) }
      let days := heapGet st4.heap ref
      let obj : ErasureObj := { user_root := userRoot, daysRef := ref, pending := true }
      let st5 := { st4 with erasures := st4.erasures ++
        [{ erasure_id := st4.erasures.length, user_root := userRoot,
           days := days, pending := true }] }
      let st6 := days.foldl markDirtySt st5
      (Except.ok (), st6, some obj)
    else (Except.ok (), st2, none)

/-- `PipelineManager.replay_deletions`: dirty every day of every pending
erasure and mark each processed. -/
def replay_deletions (st : PipeState) : PipeState :=
  (pending_erasures st.erasures).foldl
    (fun acc er =>
      let acc1 := er.days.foldl markDirtySt acc
      let newErs := acc1.erasures.map (fun x =>
        if x.erasure_id = er.erasure_id then { x with pending := false } else x)
      { acc1 with erasures := newErs })
    st

/-- The response payload of `get_daily_release` / `get_mau_release`
(fields bound to the claims; the remaining dict entries are copies of
`MechanismResult` fields carried alongside). -/
structure Payload where
  day : String
  estimate : ℚ
  lower_95 : ℚ
  upper_95 : ℚ
  epsilon_used : ℚ
  delta : ℚ
  mechanism : String
  budget_remaining : ℚ
  exact_value : ℚ

/-- `PipelineManager.get_daily_release`. -/
def get_daily_release (S : Samplers) (cfg : Config) (st : PipeState)
    (day : Date) : Except PyErr Payload × PipeState :=
  let st1 := replay_deletions st
  let ((_est, _sk, keys), st2) := get_dau st1 (isoformat day)
  let baseValue : ℚ := keys.length
  let sensitivity : ℚ := min cfg.w_bound 1
  match release_op S cfg st2.releases "dau" day baseValue sensitivity with
  | (.ok r, rels) =>
    let st3 := { st2 with releases := rels }
    let payload : Payload :=
      { day := isoformat day, estimate := r.noisy_value, lower_95 := r.ci_lo,
        upper_95 := r.ci_hi, epsilon_used := r.epsilon, delta := r.delta,
        mechanism := r.mechanism,
        budget_remaining := remaining_budget rels "dau" day cfg.dau_budget_total,
        exact_value := baseValue }
    (Except.ok payload, st3)
  | (.error e, rels) => (Except.error e, { st2 with releases := rels })

/-- `PipelineManager.get_mau_release` (`window_days or config`: a `none`
or zero argument falls back to the configured window). -/
def get_mau_release (S : Samplers) (cfg : Config) (st : PipeState)
    (endDay : Date) (window? : Option Nat) : Except PyErr Payload × PipeState :=
  let st1 := replay_deletions st
  let window := match window? with
    | some n => if n = 0 then cfg.mau_window_days else n
    | none => cfg.mau_window_days
  match get_mau st1 endDay window with
  | .ok ((value, _u), st2) =>
    (match release_op S cfg st2.releases "mau" endDay value cfg.w_bound with
     | (.ok r, rels) =>
       let st3 := { st2 with releases := rels }
       let payload : Payload :=
         { day := isoformat endDay, estimate := r.noisy_value,
           lower_95 := r.ci_lo, upper_95 := r.ci_hi, epsilon_used := r.epsilon,
           delta := r.delta, mechanism := r.mechanism,
           budget_remaining := remaining_budget rels "mau" endDay cfg.mau_budget_total,
           exact_value := value }
       (Except.ok payload, st3)
     | (.error e, rels) => (Except.error e, { st2 with releases := rels }))
  | .error e => (Except.error e, st1)

/-- `PipelineManager.reset_budget`. -/
def reset_budget (st : PipeState) (metric month : String) : PipeState :=
  { st with releases := reset_month st.releases metric month }

/-! ## Sketch factory construction (`PipelineManager._build_sketch_factory`
against the `SketchFactory` dataclass of `sketches/base.py`) -/

/-- The fields of the `@dataclass(slots=True) class SketchFactory` in
`sketches/base.py`, with whether each carries a default:
`config` (no default), `backends` (no default), `default_impl` (default). -/
def sketchFactoryFields : List (String × Bool) :=
  [("config", false), ("backends", false), ("default_impl", true)]

/-- The keys registered into the `builders` dict assembled by
`PipelineManager._build_sketch_factory` (`"set"`, `"hllpp"`, and `"theta"`
inside the `try` block, whose body does not raise at registration time). -/
def pipelineBuilderNames : List String := ["set", "hllpp", "theta"]

/-- Python keyword-call validity against a dataclass `__init__`: every
provided keyword must name a declared field, and every field without a
default must be provided; otherwise the call raises `TypeError`. -/
def keywordCallOk (fields : List (String × Bool)) (provided : List String) :
    Bool :=
  provided.all (fun kw => fields.any (fun f => f.1 = kw)) &&
  fields.all (fun f => f.2 || provided.contains f.1)

/-- `PipelineManager._build_sketch_factory`: the source calls
`SketchFactory(builders=builders, default_impl="set")`, then checks the
configured implementation against `factory.builders` and raises
`RuntimeError` when it is missing, finally overwriting `default_impl`.
The keyword call is checked against the dataclass fields above.  Returns
the registered names and the selected default on success. -/
def build_sketch_factory (impl : String) : Except PyErr (List String × String) :=
  if keywordCallOk sketchFactoryFields ["builders", "default_impl"] then
    if pipelineBuilderNames.contains impl then .ok (pipelineBuilderNames, impl)
    else .error .runtimeError
  else .error .typeError

/-! ## Operation sequences over one pipeline -/

/-- One externally driven pipeline operation (`ingest_event`,
`get_daily_release`, `get_mau_release`, `reset_budget`). -/
inductive PipeOp where
  | ingest (e : Event)
  | daily (day : Date)
  | mau (endDay : Date) (window? : Option Nat)
  | reset (metric month : String)

/-- Apply one operation to the pipeline state (outcomes are discarded;
exceptions leave behind exactly the mutations the code performed before
raising). -/
def stepOp (S : Samplers) (cfg : Config) (st : PipeState) : PipeOp → PipeState
  | .ingest e => (ingest_event cfg st e).2.1
  | .daily day => (get_daily_release S cfg st day).2
  | .mau endDay w => (get_mau_release S cfg st endDay w).2
  | .reset metric month => reset_budget st metric month

/-- Run a sequence of pipeline operations from a state. -/
def runOps (S : Samplers) (cfg : Config) (st : PipeState)
    (ops : List PipeOp) : PipeState :=
  ops.foldl (stepOp S cfg) st

/-! ## Concrete scenario material -/

/-- A concrete `Samplers` instantiation (log/sqrt constantly 0, the first
uniform draw 1/2) used by closed evaluations. -/
def constSamplers : Samplers :=
  { mlog := fun _ => 0, msqrt := fun _ => 0,
    udraw := fun _ => 1 / 2, gdraw := fun _ => 0 }

/-- October 1, 2025. -/
def oct1 : Date := ⟨2025, 10, 1⟩

/-- October 2, 2025. -/
def oct2 : Date := ⟨2025, 10, 2⟩

/-- State after ingesting `+alice@2025-10-01` and `+alice@2025-10-02`
(rotation 30 days, so both days lie in epoch `739525 / 30 = 739526 / 30`). -/
def aliceTwoDays : PipeState :=
  (ingest_event defaultConfig
    ((ingest_event defaultConfig (initState [["2025-10-01", "2025-10-02"]])
      { user_id := "alice", op := "+", day := oct1, metadataDays := none }).2.1)
    { user_id := "alice", op := "+", day := oct2, metadataDays := none }).2.1

/-- The deletion event `-alice@2025-10-02` whose metadata carries
`days = ["2025-10-01", "2025-10-02"]` (heap reference 0). -/
def aliceDeletion : Event :=
  { user_id := "alice", op := "-", day := oct2, metadataDays := some 0 }

/-- First daily release of the retroactive-deletion scenario:
`get_daily_release(2025-10-01)` before the deletion. -/
def deletionRun1 : Except PyErr Payload × PipeState :=
  get_daily_release constSamplers defaultConfig aliceTwoDays oct1

/-- The state after additionally ingesting the deletion. -/
def afterDeletion : PipeState :=
  (ingest_event defaultConfig deletionRun1.2 aliceDeletion).2.1

/-- Second daily release of the scenario: `get_daily_release(2025-10-01)`
after the deletion was ingested (it starts with `replay_deletions`, which
marks 2025-10-01 dirty, so the snapshot is rebuilt from the ledger). -/
def deletionRun2 : Except PyErr Payload × PipeState :=
  get_daily_release constSamplers defaultConfig afterDeletion oct1

/-! ## Claim theorems -/

set_option maxRecDepth 1000000

/-- C1: the claim states that ingesting `+` events for one user on all W
days of a window inside one salt-rotation epoch and then computing the MAU
yields `exact_value == 1`.  On the code, the MAU computation never
produces a value: `WindowManager.get_mau` invokes `union.merge(...)`, an
attribute `SetSketch` does not define, so the seed scenario
(`+alice@2025-10-01`, `+alice@2025-10-02`, `MAU(2025-10-02, W=2)`) raises
`AttributeError` instead of returning `exact_value == 1`. -/
theorem mau_identity_collapse_scenario_raises :
    (get_mau_release constSamplers defaultConfig aliceTwoDays oct2 (some 2)).1 =
      .error .attributeError := by
  rfl


/-- C2: the claim states that after `+alice@D1`, `+alice@D2` (so
`DAU(D1).exact_value == 1`), ingesting `-alice@D2` with
`metadata.days = [D1, D2]` followed by a snapshot rebuild gives
`DAU(D1).exact_value == 0` and a D1 snapshot free of alice-derived keys.
On the code the deletion only dirties the snapshots; no tombstone is
written into day D1's ledger rows, so the rebuilt D1 snapshot still
contains alice's day-D1 key and `DAU(D1).exact_value` stays 1. -/
theorem retroactive_deletion_scenario_keeps_user :
    deletionRun1.1.map Payload.exact_value = .ok 1 ∧
    deletionRun2.1.map Payload.exact_value = .ok 1 ∧
    (deletionRun2.2.snapshots.lookup "2025-10-01").map
      (fun s => decide (hash_user_id defaultConfig "alice" oct1 ∈ s.keys)) =
      some true := by
  refine ⟨?_, ?_, ?_⟩ <;> with_unfolding_all rfl

/-- C3: the claim states `salt_for_day(D1) == salt_for_day(D2)` whenever
`floor(ordinal/R)` agrees, hence equal user keys within one epoch.  The
code's HMAC message is `"{iso}::{epoch}"`, which contains the ISO date
itself, so two days of the same epoch produce different salts and
different user keys: with rotation 30 and the secret `"secret"`,
2025-10-01 and 2025-10-02 share epoch `739525 / 30 = 739526 / 30` yet both
the salts and the user keys of `"alice"` differ. -/
theorem salt_same_epoch_but_keys_differ :
    toOrdinal oct1 / 30 = toOrdinal oct2 / 30 ∧
    salt_for_day "secret" 30 oct1 ≠ salt_for_day "secret" 30 oct2 ∧
    hash_user_id defaultConfig "alice" oct1 ≠
      hash_user_id defaultConfig "alice" oct2 :=
  of_decide_eq_true (by with_unfolding_all rfl)

/-- C4: the claim states `get_mau` unions the window's snapshots via
`union_sketch.union(snapshot.sketch)` and returns the union estimate.
The code instead invokes `union.merge(snapshot.sketch)`; the `set`
backend's `SetSketch` defines `union` and `a_not_b` but no `merge`, so
every `get_mau` call raises `AttributeError` — already on a fresh empty
state with a one-day window. -/
theorem get_mau_merge_attribute_error :
    get_mau (initState []) oct1 1 = .error .attributeError := by
  rfl

/-- C6: the claim states `PipelineManager(config)` builds a sketch factory
and fails precisely when the configured implementation is unregistered.
The code's call `SketchFactory(builders=..., default_impl="set")` does not
match the dataclass fields `(config, backends, default_impl)` of
`sketches/base.py`, so construction raises `TypeError` for every
configured implementation; moreover the assembled builders never include
`"kmv"`, the configuration default. -/
theorem sketch_factory_construction_always_raises :
    (∀ impl : String, build_sketch_factory impl = .error .typeError) ∧
    pipelineBuilderNames.contains "kmv" = false := by
  exact ⟨fun _ => rfl, by decide⟩

/-! ## C5: the monthly budget cap invariant -/

/-- The per-metric cap invariant over an accountant's release log. -/
def budgetInv (cfg : Config) (rels : List ReleaseRow) : Prop :=
  ∀ metric period, sumEps rels metric period ≤ capFor cfg metric + budgetTol

theorem sumEps_cons (r : ReleaseRow) (rest : List ReleaseRow) (m p : String) :
    sumEps (r :: rest) m p =
      (if r.metric = m ∧ r.period = p then r.epsilon else 0) + sumEps rest m p := by
  by_cases h : r.metric = m ∧ r.period = p <;> simp [sumEps, List.filter, h]

theorem sumEps_append_single (rels : List ReleaseRow) (r : ReleaseRow)
    (m p : String) :
    sumEps (rels ++ [r]) m p =
      sumEps rels m p + (if r.metric = m ∧ r.period = p then r.epsilon else 0) := by
  by_cases h : r.metric = m ∧ r.period = p
  · have hb : (decide (r.metric = m) && decide (r.period = p)) = true := by
      simp [h.1, h.2]
    simp [sumEps, List.filter_append, List.filter, h, hb]
  · have hb : (decide (r.metric = m) && decide (r.period = p)) = false := by
      simpa [Bool.and_eq_true, decide_eq_true_eq] using h
    simp [sumEps, List.filter_append, List.filter, h, hb]

theorem sumEps_reset (rels : List ReleaseRow) (m0 p0 m p : String) :
    sumEps (reset_month rels m0 p0) m p =
      if m = m0 ∧ p = p0 then 0 else sumEps rels m p := by
  induction rels with
  | nil => by_cases hkey : m = m0 ∧ p = p0 <;> simp [sumEps, reset_month, hkey]
  | cons r rest ih =>
    by_cases hdel : r.metric = m0 ∧ r.period = p0
    · have hdrop : reset_month (r :: rest) m0 p0 = reset_month rest m0 p0 := by
        simp [reset_month, List.filter, hdel]
      rw [hdrop, ih]
      by_cases hkey : m = m0 ∧ p = p0
      · simp [hkey]
      · have hmatch : ¬(r.metric = m ∧ r.period = p) := fun hc =>
          hkey ⟨hc.1.symm.trans hdel.1, hc.2.symm.trans hdel.2⟩
        rw [if_neg hkey, if_neg hkey, sumEps_cons, if_neg hmatch, zero_add]
    · have hkeep : reset_month (r :: rest) m0 p0 = r :: reset_month rest m0 p0 := by
        simp only [reset_month, List.filter]
        have : (¬(r.metric = m0 ∧ r.period = p0) : Prop) := hdel
        simp [this]
      rw [hkeep, sumEps_cons, ih]
      by_cases hkey : m = m0 ∧ p = p0
      · have hmatch : ¬(r.metric = m ∧ r.period = p) := fun hc =>
          hdel ⟨hc.1.trans hkey.1, hc.2.trans hkey.2⟩
        rw [if_pos hkey, if_pos hkey, if_neg hmatch, zero_add]
      · rw [if_neg hkey, if_neg hkey, sumEps_cons]

theorem capFor_nonneg (cfg : Config) (hd : 0 ≤ cfg.dau_budget_total)
    (hm : 0 ≤ cfg.mau_budget_total) (metric : String) :
    0 ≤ capFor cfg metric := by
  unfold capFor
  split <;> assumption

theorem budgetInv_nil (cfg : Config) (hd : 0 ≤ cfg.dau_budget_total)
    (hm : 0 ≤ cfg.mau_budget_total) : budgetInv cfg [] := by
  intro metric period
  have h1 : (0 : ℚ) ≤ capFor cfg metric := capFor_nonneg cfg hd hm metric
  have h2 : (0 : ℚ) < budgetTol := by norm_num [budgetTol]
  simp only [sumEps, List.filter_nil, List.map_nil, List.sum_nil]
  linarith

theorem budgetInv_release_op (S : Samplers) (cfg : Config)
    (rels : List ReleaseRow) (metric : String) (day : Date) (b s : ℚ)
    (hinv : budgetInv cfg rels) :
    budgetInv cfg (release_op S cfg rels metric day b s).2 := by
  unfold release_op
  by_cases hc : can_release rels metric (epsFor cfg metric) day (capFor cfg metric) = true
  · simp only [hc, if_true]
    rcases hres : (if deltaFor cfg metric > 0 then
        gaussian_mechanism S b s (epsFor cfg metric) (deltaFor cfg metric)
          (seed_for metric day cfg.default_seed)
      else
        laplace_mechanism S b s (epsFor cfg metric)
          (seed_for metric day cfg.default_seed)) with e | r
    all_goals simp only [hres]
    · -- mechanism raised: the log is unchanged
      exact hinv
    · -- mechanism succeeded: the release is appended
      intro m p
      rw [sumEps_append_single]
      by_cases hkey : metric = m ∧ month_key day = p
      · have hcan : spent_budget rels metric day + epsFor cfg metric ≤
            capFor cfg metric + budgetTol := by
          simpa [can_release] using hc
        rw [if_pos (And.intro hkey.1 hkey.2)]
        have hsum : sumEps rels m p = spent_budget rels metric day := by
          simp [spent_budget, hkey.1, hkey.2]
        rw [hsum]
        have hcap : capFor cfg m = capFor cfg metric := by rw [hkey.1]
        rw [hcap]
        exact hcan
      · rw [if_neg (fun hc => hkey (And.intro hc.1 hc.2)), add_zero]
        exact hinv m p
  · simp only [Bool.not_eq_true] at hc
    simp only [hc]
    exact hinv

theorem releases_markDirtySt (st : PipeState) (day : String) :
    (markDirtySt st day).releases = st.releases := rfl

theorem releases_foldl_markDirty (days : List String) (st : PipeState) :
    (days.foldl markDirtySt st).releases = st.releases := by
  induction days generalizing st with
  | nil => rfl
  | cons d rest ih => simpa using ih (markDirtySt st d)

theorem releases_replay_deletions (st : PipeState) :
    (replay_deletions st).releases = st.releases := by
  unfold replay_deletions
  generalize pending_erasures st.erasures = pend
  induction pend generalizing st with
  | nil => rfl
  | cons er rest ih =>
    simp only [List.foldl]
    rw [ih]
    simp [releases_foldl_markDirty]

theorem releases_build_snapshot (st : PipeState) (day : String)
    (events : List (String × List Nat)) :
    (build_snapshot st day events).2.releases = st.releases := rfl

theorem releases_get_snapshot (st : PipeState) (day : String) :
    (get_snapshot st day).2.releases = st.releases := by
  unfold get_snapshot
  rcases h : st.snapshots.lookup day with _ | snap
  · simp [releases_build_snapshot]
  · by_cases hd : snap.dirty <;> simp [hd, releases_build_snapshot]

theorem releases_get_dau (st : PipeState) (day : String) :
    (get_dau st day).2.releases = st.releases := by
  unfold get_dau
  rcases h : get_snapshot st day with ⟨snap, st1⟩
  have := releases_get_snapshot st day
  rw [h] at this
  simpa using this

theorem releases_mauLoop (days : List Date) (st : PipeState) (acc : Sketch)
    (u : Sketch) (st1 : PipeState)
    (h : mauLoop st days acc = .ok (u, st1)) :
    st1.releases = st.releases := by
  induction days generalizing st acc with
  | nil =>
    unfold mauLoop at h
    injection h with h
    rw [show st1 = st from (congrArg Prod.snd h).symm]
  | cons d rest ih =>
    unfold mauLoop at h
    rcases hs : get_snapshot st (isoformat d) with ⟨snap, st2⟩
    rw [hs] at h
    dsimp only at h
    rcases hb : acc.callBinary "merge" snap.sketch with e | acc'
    · rw [hb] at h
      simp at h
    · rw [hb] at h
      have hrel := releases_get_snapshot st (isoformat d)
      rw [hs] at hrel
      simp only at hrel
      rw [ih st2 acc' h, hrel]

theorem releases_ingest_event (cfg : Config) (st : PipeState) (e : Event) :
    (ingest_event cfg st e).2.1.releases = st.releases := by
  unfold ingest_event
  split
  · rfl
  · split
    · split <;> dsimp only [heapAlloc, markDirtySt] <;> split_ifs <;>
        simp [releases_foldl_markDirty, markDirtySt, heapAlloc, heapSet]
    · rfl

theorem budgetInv_release_op_pair (S : Samplers) (cfg : Config)
    (rels : List ReleaseRow) (metric : String) (day : Date) (b s : ℚ)
    (out : Except PyErr MechanismResult) (rels2 : List ReleaseRow)
    (heq : release_op S cfg rels metric day b s = (out, rels2))
    (hinv : budgetInv cfg rels) : budgetInv cfg rels2 := by
  have h := budgetInv_release_op S cfg rels metric day b s hinv
  rw [heq] at h
  exact h

theorem releases_get_mau_ok (st : PipeState) (endDay : Date) (w : Nat)
    (v : ℚ) (u : Sketch) (st2 : PipeState)
    (h : get_mau st endDay w = .ok ((v, u), st2)) : st2.releases = st.releases := by
  unfold get_mau at h
  rcases hm : mauLoop st (windowDays endDay w) createSketch with e | ⟨u2, st3⟩
  · rw [hm] at h
    simp at h
  · rw [hm] at h
    simp only at h
    injection h with h
    have h2 : st2 = st3 := (congrArg Prod.snd h).symm
    rw [h2]
    exact releases_mauLoop _ _ _ _ _ hm

theorem budgetInv_daily (S : Samplers) (cfg : Config) (st : PipeState)
    (day : Date) (hinv : budgetInv cfg st.releases) :
    budgetInv cfg (get_daily_release S cfg st day).2.releases := by
  simp only [get_daily_release]
  rcases hd : get_dau (replay_deletions st) (isoformat day) with ⟨⟨est, sk, keys⟩, st2⟩
  have hrel2 : st2.releases = st.releases := by
    have h1 := releases_get_dau (replay_deletions st) (isoformat day)
    rw [hd] at h1
    simp only at h1
    rw [h1, releases_replay_deletions]
  have hinv2 : budgetInv cfg st2.releases := by rw [hrel2]; exact hinv
  dsimp only at hinv2 ⊢
  split <;> rename_i heq <;>
    simpa using budgetInv_release_op_pair _ _ _ _ _ _ _ _ _ heq hinv2

theorem budgetInv_mau_release (S : Samplers) (cfg : Config) (st : PipeState)
    (endDay : Date) (w? : Option Nat) (hinv : budgetInv cfg st.releases) :
    budgetInv cfg (get_mau_release S cfg st endDay w?).2.releases := by
  simp only [get_mau_release]
  have hreplay : (replay_deletions st).releases = st.releases :=
    releases_replay_deletions st
  split
  · rename_i v u st2 heq
    have hrel2 : st2.releases = st.releases := by
      rw [releases_get_mau_ok _ _ _ _ _ _ heq, hreplay]
    have hinv2 : budgetInv cfg st2.releases := by rw [hrel2]; exact hinv
    split <;> rename_i heq2 <;>
      simpa using budgetInv_release_op_pair _ _ _ _ _ _ _ _ _ heq2 hinv2
  · rename_i e heq
    simpa [hreplay] using hinv

theorem budgetInv_stepOp (S : Samplers) (cfg : Config)
    (hd : 0 ≤ cfg.dau_budget_total) (hm : 0 ≤ cfg.mau_budget_total)
    (st : PipeState) (op : PipeOp) (hinv : budgetInv cfg st.releases) :
    budgetInv cfg (stepOp S cfg st op).releases := by
  cases op with
  | ingest e =>
    simp only [stepOp]
    rw [releases_ingest_event]
    exact hinv
  | daily day => exact budgetInv_daily S cfg st day hinv
  | mau endDay w => exact budgetInv_mau_release S cfg st endDay w hinv
  | reset metric month =>
    intro m p
    simp only [stepOp, reset_budget]
    rw [sumEps_reset]
    split
    · have h1 : (0 : ℚ) ≤ capFor cfg m := capFor_nonneg cfg hd hm m
      have h2 : (0 : ℚ) < budgetTol := by norm_num [budgetTol]
      linarith
    · exact hinv m p

theorem budgetInv_runOps (S : Samplers) (cfg : Config)
    (hd : 0 ≤ cfg.dau_budget_total) (hm : 0 ≤ cfg.mau_budget_total)
    (st : PipeState) (ops : List PipeOp) (hinv : budgetInv cfg st.releases) :
    budgetInv cfg (runOps S cfg st ops).releases := by
  induction ops generalizing st with
  | nil => exact hinv
  | cons op rest ih =>
    exact ih (stepOp S cfg st op) (budgetInv_stepOp S cfg hd hm st op hinv)

/-- The operation sequence used by the C5 witness: one ingest followed by
one daily release. -/
def witnessOps : List PipeOp :=
  [PipeOp.ingest { user_id := "alice", op := "+", day := oct1, metadataDays := none },
   PipeOp.daily oct1]

/-- C5: for every metric and calendar month, after any sequence of pipeline
ingest, release and reset operations (starting from a fresh pipeline with
non-negative configured caps), the sum of the ε values of the recorded
releases of that metric and month never exceeds the metric's cap plus the
`1e-9` tolerance; and `can_release` returns true exactly when
`spent_budget + ε ≤ cap + 1e-9`.  The releases are recorded by `_release`
only behind a passing `can_release` check with the same ε and cap. -/
theorem monthly_budget_cap_invariant (S : Samplers) (cfg : Config)
    (heap : List (List String)) (ops : List PipeOp)
    (hdau : 0 ≤ cfg.dau_budget_total) (hmau : 0 ≤ cfg.mau_budget_total) :
    (∀ (rels : List ReleaseRow) (metric : String) (epsilon : ℚ) (day : Date)
        (cap : ℚ),
        can_release rels metric epsilon day cap = true ↔
          spent_budget rels metric day + epsilon ≤ cap + budgetTol) ∧
    ∀ metric period,
      sumEps (runOps S cfg (initState heap) ops).releases metric period ≤
        capFor cfg metric + budgetTol := by
  constructor
  · intro rels metric epsilon day cap
    simp [can_release]
  · exact budgetInv_runOps S cfg hdau hmau (initState heap) ops
      (budgetInv_nil cfg hdau hmau)

/-- Witness for C5 at a concrete configuration and operation sequence. -/
theorem monthly_budget_cap_invariant_witness :
    (∀ (rels : List ReleaseRow) (metric : String) (epsilon : ℚ) (day : Date)
        (cap : ℚ),
        can_release rels metric epsilon day cap = true ↔
          spent_budget rels metric day + epsilon ≤ cap + budgetTol) ∧
    ∀ metric period,
      sumEps (runOps constSamplers defaultConfig (initState []) witnessOps).releases
          metric period ≤
        capFor defaultConfig metric + budgetTol :=
  monthly_budget_cap_invariant constSamplers defaultConfig [] witnessOps
    (by norm_num [defaultConfig]) (by norm_num [defaultConfig])

/-- C7: noise is deterministic.  The generator is seeded from
`_seed_for(metric, day, default_seed)` alone, so with the process's fixed
sampling functions any two releases with identical
`(metric, day, default_seed, base, sensitivity, ε, δ)` produce identical
results — identical noisy values and identical confidence intervals —
even across pipelines with different accountant states and otherwise
different configurations; and the seed on a successful release equals the
first 8 bytes of `SHA-256("{metric}:{day}:{default_seed}")` read as an
unsigned big-endian 64-bit integer. -/
theorem release_noise_deterministic (S : Samplers) (cfg1 cfg2 : Config)
    (rels1 rels2 : List ReleaseRow) (metric : String) (day : Date)
    (base sens : ℚ)
    (he : epsFor cfg1 metric = epsFor cfg2 metric)
    (hdl : deltaFor cfg1 metric = deltaFor cfg2 metric)
    (hs : cfg1.default_seed = cfg2.default_seed)
    (hc1 : can_release rels1 metric (epsFor cfg1 metric) day
      (capFor cfg1 metric) = true)
    (hc2 : can_release rels2 metric (epsFor cfg2 metric) day
      (capFor cfg2 metric) = true) :
    (release_op S cfg1 rels1 metric day base sens).1 =
      (release_op S cfg2 rels2 metric day base sens).1 ∧
    ∀ r, (release_op S cfg1 rels1 metric day base sens).1 = .ok r →
      r.seed = beNat ((sha256 (strBytes (metric ++ ":" ++ isoformat day ++
        ":" ++ toString cfg1.default_seed))).take 8) := by
  have hmain : (release_op S cfg1 rels1 metric day base sens).1 =
      (release_op S cfg2 rels2 metric day base sens).1 := by
    unfold release_op
    simp only [hc1, hc2, if_true]
    rw [← he, ← hdl, ← hs]
    rcases hres : (if deltaFor cfg1 metric > 0 then
        gaussian_mechanism S base sens (epsFor cfg1 metric)
          (deltaFor cfg1 metric) (seed_for metric day cfg1.default_seed)
      else
        laplace_mechanism S base sens (epsFor cfg1 metric)
          (seed_for metric day cfg1.default_seed)) with e | r <;>
      simp [hres]
  refine ⟨hmain, ?_⟩
  intro r hr
  unfold release_op at hr
  simp only [hc1, if_true] at hr
  rcases hres : (if deltaFor cfg1 metric > 0 then
      gaussian_mechanism S base sens (epsFor cfg1 metric)
        (deltaFor cfg1 metric) (seed_for metric day cfg1.default_seed)
    else
      laplace_mechanism S base sens (epsFor cfg1 metric)
        (seed_for metric day cfg1.default_seed)) with e | r2
  · rw [hres] at hr
    simp at hr
  · rw [hres] at hr
    simp only at hr
    injection hr with hr2
    have hseed : r2.seed = seed_for metric day cfg1.default_seed := by
      by_cases hdelta : deltaFor cfg1 metric > 0
      · rw [if_pos hdelta] at hres
        unfold gaussian_mechanism at hres
        by_cases heps : epsFor cfg1 metric ≤ 0 ∨ deltaFor cfg1 metric ≤ 0 ∨
            1 ≤ deltaFor cfg1 metric
        · rw [if_pos heps] at hres
          exact absurd hres (by simp)
        · rw [if_neg heps] at hres
          simp only at hres
          injection hres with hres3
          rw [← hres3]
      · rw [if_neg hdelta] at hres
        unfold laplace_mechanism at hres
        by_cases heps : epsFor cfg1 metric ≤ 0
        · rw [if_pos heps] at hres
          exact absurd hres (by simp)
        · rw [if_neg heps] at hres
          simp only at hres
          injection hres with hres3
          rw [← hres3]
    rw [← hr2, hseed]
    rfl

/-- Witness for C7 at a concrete metric, day and configuration. -/
theorem release_noise_deterministic_witness :
    (release_op constSamplers defaultConfig [] "dau" oct1 1 1).1 =
      (release_op constSamplers defaultConfig [] "dau" oct1 1 1).1 ∧
    ∀ r, (release_op constSamplers defaultConfig [] "dau" oct1 1 1).1 = .ok r →
      r.seed = beNat ((sha256 (strBytes ("dau" ++ ":" ++ isoformat oct1 ++
        ":" ++ toString defaultConfig.default_seed))).take 8) :=
  release_noise_deterministic constSamplers defaultConfig defaultConfig [] []
    "dau" oct1 1 1 rfl rfl rfl
    (of_decide_eq_true (by with_unfolding_all rfl))
    (of_decide_eq_true (by with_unfolding_all rfl))

theorem laplace_no_budget_error (S : Samplers) (v s e : ℚ) (seed : Nat)
    (msg : String) :
    laplace_mechanism S v s e seed ≠ .error (.budgetExceeded msg) := by
  unfold laplace_mechanism
  split <;> simp

theorem gaussian_no_budget_error (S : Samplers) (v s e d : ℚ) (seed : Nat)
    (msg : String) :
    gaussian_mechanism S v s e d seed ≠ .error (.budgetExceeded msg) := by
  unfold gaussian_mechanism
  split <;> simp

/-- C8: `_release` fails with `BudgetExceeded` carrying the metric and day
exactly when `can_release` returns false for the configured per-metric ε
and cap; on any failure the accountant's release log is unchanged, and on
success exactly the one release row is appended after the mechanism
returned. -/
theorem release_budget_exceeded_gate (S : Samplers) (cfg : Config)
    (rels : List ReleaseRow) (metric : String) (day : Date) (base sens : ℚ) :
    ((release_op S cfg rels metric day base sens).1 =
        .error (.budgetExceeded (metric ++ " budget exhausted for " ++
          isoformat day)) ↔
      can_release rels metric (epsFor cfg metric) day (capFor cfg metric) =
        false) ∧
    (∀ e, (release_op S cfg rels metric day base sens).1 = .error e →
      (release_op S cfg rels metric day base sens).2 = rels) ∧
    (∀ r, (release_op S cfg rels metric day base sens).1 = .ok r →
      (release_op S cfg rels metric day base sens).2 =
        rels ++ [{ metric := metric, day := isoformat day,
                   period := month_key day, epsilon := epsFor cfg metric,
                   delta := deltaFor cfg metric, mechanism := r.mechanism,
                   seed := seed_for metric day cfg.default_seed }]) := by
  by_cases hc : can_release rels metric (epsFor cfg metric) day
      (capFor cfg metric) = true
  · unfold release_op
    simp only [hc, if_true]
    rcases hres : (if deltaFor cfg metric > 0 then
        gaussian_mechanism S base sens (epsFor cfg metric)
          (deltaFor cfg metric) (seed_for metric day cfg.default_seed)
      else
        laplace_mechanism S base sens (epsFor cfg metric)
          (seed_for metric day cfg.default_seed)) with e | r
    · have hnb : ∀ msg, e ≠ .budgetExceeded msg := by
        intro msg hmsg
        subst hmsg
        by_cases hdelta : deltaFor cfg metric > 0
        · rw [if_pos hdelta] at hres
          exact gaussian_no_budget_error S base sens (epsFor cfg metric)
            (deltaFor cfg metric) (seed_for metric day cfg.default_seed) msg hres
        · rw [if_neg hdelta] at hres
          exact laplace_no_budget_error S base sens (epsFor cfg metric)
            (seed_for metric day cfg.default_seed) msg hres
      simp only [hres]
      refine ⟨iff_of_false ?_ (by simp [hc]), by simp, by simp⟩
      intro h
      injection h with h
      exact hnb _ h
    · simp only [hres]
      refine ⟨iff_of_false (by simp) (by simp [hc]), by simp, ?_⟩
      intro r2 h
      injection h with h2
      rw [h2]
  · simp only [Bool.not_eq_true] at hc
    unfold release_op
    rw [if_neg (by simp [hc])]
    exact ⟨iff_of_true rfl hc, fun e h => rfl, fun r h => absurd h (by simp)⟩

/-- Witness for C8: on an accountant that already spent the whole DAU cap,
the release fails with `BudgetExceeded` naming the metric and the day. -/
theorem release_budget_exceeded_gate_witness :
    (release_op constSamplers defaultConfig
        [{ metric := "dau", day := "2025-10-01", period := "2025-10",
           epsilon := 3, delta := 0, mechanism := "laplace", seed := 0 }]
        "dau" oct1 1 1).1 =
      .error (.budgetExceeded ("dau" ++ " budget exhausted for " ++
        isoformat oct1)) :=
  (release_budget_exceeded_gate constSamplers defaultConfig
    [{ metric := "dau", day := "2025-10-01", period := "2025-10",
       epsilon := 3, delta := 0, mechanism := "laplace", seed := 0 }]
    "dau" oct1 1 1).1.mpr (by with_unfolding_all rfl)

theorem bestLoop_mem (logTerm : ℚ) (pts : List (ℚ × ℚ))
    (acc : Option (ℚ × ℚ)) (e a : ℚ)
    (h : bestLoop logTerm pts acc = some (e, a)) :
    acc = some (e, a) ∨
      ∃ v, (a, v) ∈ pts ∧ 1 < a ∧ e = v + logTerm / (a - 1) := by
  induction pts generalizing acc with
  | nil =>
    unfold bestLoop at h
    exact Or.inl h
  | cons p rest ih =>
    rcases p with ⟨a0, v0⟩
    unfold bestLoop at h
    by_cases h1 : a0 ≤ 1
    · rw [if_pos h1] at h
      rcases ih acc h with hacc | ⟨v, hv, hlt, heq⟩
      · exact Or.inl hacc
      · exact Or.inr ⟨v, List.mem_cons_of_mem _ hv, hlt, heq⟩
    · rw [if_neg h1] at h
      have h1' : 1 < a0 := lt_of_not_le h1
      cases acc with
      | none =>
        simp only at h
        rcases ih _ h with hacc | ⟨v, hv, hlt, heq⟩
        · injection hacc with hacc
          have he : e = v0 + logTerm / (a0 - 1) :=
            (congrArg Prod.fst hacc).symm
          have ha : a = a0 := (congrArg Prod.snd hacc).symm
          exact Or.inr ⟨v0, by rw [ha]; exact List.mem_cons_self _ _,
            by rw [ha]; exact h1', by rw [he, ha]⟩
        · exact Or.inr ⟨v, List.mem_cons_of_mem _ hv, hlt, heq⟩
      | some b =>
        rcases b with ⟨be, bo⟩
        simp only at h
        by_cases h2 : v0 + logTerm / (a0 - 1) < be
        · rw [if_pos h2] at h
          rcases ih _ h with hacc | ⟨v, hv, hlt, heq⟩
          · injection hacc with hacc
            have he : e = v0 + logTerm / (a0 - 1) :=
              (congrArg Prod.fst hacc).symm
            have ha : a = a0 := (congrArg Prod.snd hacc).symm
            exact Or.inr ⟨v0, by rw [ha]; exact List.mem_cons_self _ _,
              by rw [ha]; exact h1', by rw [he, ha]⟩
          · exact Or.inr ⟨v, List.mem_cons_of_mem _ hv, hlt, heq⟩
        · rw [if_neg h2] at h
          rcases ih _ h with hacc | ⟨v, hv, hlt, heq⟩
          · exact Or.inl hacc
          · exact Or.inr ⟨v, List.mem_cons_of_mem _ hv, hlt, heq⟩

theorem bestLoop_min (logTerm : ℚ) (pts : List (ℚ × ℚ))
    (acc : Option (ℚ × ℚ)) (e a : ℚ)
    (h : bestLoop logTerm pts acc = some (e, a)) :
    (∀ p ∈ pts, 1 < p.1 → e ≤ p.2 + logTerm / (p.1 - 1)) ∧
    (∀ e0 a0, acc = some (e0, a0) → e ≤ e0) := by
  induction pts generalizing acc with
  | nil =>
    unfold bestLoop at h
    refine ⟨by simp, ?_⟩
    intro e0 a0 hacc
    rw [h] at hacc
    injection hacc with hacc
    exact le_of_eq (congrArg Prod.fst hacc)
  | cons p rest ih =>
    rcases p with ⟨a0, v0⟩
    unfold bestLoop at h
    by_cases h1 : a0 ≤ 1
    · rw [if_pos h1] at h
      obtain ⟨hall, hacc⟩ := ih acc h
      refine ⟨?_, hacc⟩
      intro p hp hlt
      rcases List.mem_cons.mp hp with heq | hmem
      · rw [heq] at hlt
        exact absurd hlt (not_lt_of_le h1)
      · exact hall p hmem hlt
    · rw [if_neg h1] at h
      cases acc with
      | none =>
        simp only at h
        obtain ⟨hall, haccle⟩ := ih _ h
        have hef : e ≤ v0 + logTerm / (a0 - 1) := haccle _ _ rfl
        refine ⟨?_, ?_⟩
        · intro p hp hlt
          rcases List.mem_cons.mp hp with heq | hmem
          · rw [heq]
            exact hef
          · exact hall p hmem hlt
        · intro e0 a0' hacc0
          cases hacc0
      | some b =>
        rcases b with ⟨be, bo⟩
        simp only at h
        by_cases h2 : v0 + logTerm / (a0 - 1) < be
        · rw [if_pos h2] at h
          obtain ⟨hall, haccle⟩ := ih _ h
          have hef : e ≤ v0 + logTerm / (a0 - 1) := haccle _ _ rfl
          refine ⟨?_, ?_⟩
          · intro p hp hlt
            rcases List.mem_cons.mp hp with heq | hmem
            · rw [heq]
              exact hef
            · exact hall p hmem hlt
          · intro e0 a0' hacc0
            injection hacc0 with hacc0
            have hbe0 : be = e0 := congrArg Prod.fst hacc0
            linarith
        · rw [if_neg h2] at h
          obtain ⟨hall, haccle⟩ := ih _ h
          have hebe : e ≤ be := haccle _ _ rfl
          have hbef : be ≤ v0 + logTerm / (a0 - 1) := le_of_not_lt h2
          refine ⟨?_, ?_⟩
          · intro p hp hlt
            rcases List.mem_cons.mp hp with heq | hmem
            · rw [heq]
              linarith
            · exact hall p hmem hlt
          · intro e0 a0' hacc0
            injection hacc0 with hacc0
            have hbe0 : be = e0 := congrArg Prod.fst hacc0
            linarith

/-- C9: `best_rdp_epsilon` returns `(None, None)` when there are no logged
points and no orders; any returned pair `(ε*, α*)` is realised by a curve
point with `α* > 1` via `ε* = ε_α + log(1/δ)/(α-1)` and minimises that
conversion over all curve points with `α > 1` (with `logTerm` standing for
the float `math.log(1/δ)`); and on the single logged point
`(α=2, ε_α=0.25)` at `δ = 1e-6` it returns `(0.25 + log(1e6)/(2-1), 2)`. -/
theorem best_rdp_epsilon_minimises (rows : List RdpRow) (metric : String)
    (day : Date) (delta logTerm : ℚ) (orders : List ℚ) :
    ((rows.filter (fun r => r.metric = metric ∧ r.period = month_key day)) = [] →
      orders = [] →
      best_rdp_epsilon rows metric day delta logTerm orders = none) ∧
    (∀ e a, best_rdp_epsilon rows metric day delta logTerm orders = some (e, a) →
      (0 < delta ∧ delta < 1) ∧
      (∃ v, (a, v) ∈ spent_rdp rows metric day orders ∧ 1 < a ∧
        e = v + logTerm / (a - 1)) ∧
      ∀ p ∈ spent_rdp rows metric day orders, 1 < p.1 →
        e ≤ p.2 + logTerm / (p.1 - 1)) ∧
    (∀ lt : ℚ, best_rdp_epsilon
        [{ metric := "mau", day := "2025-10-09", period := "2025-10",
           alpha := 2, eps := 1/4 }] "mau" ⟨2025, 10, 9⟩ (1/1000000) lt [] =
      some (1/4 + lt / (2 - 1), 2)) := by
  refine ⟨?_, ?_, ?_⟩
  · intro hfilter horders
    unfold best_rdp_epsilon best_from_curve spent_rdp rdpGroupSums
    rw [hfilter, horders]
    simp only [List.foldl_nil]
    split <;> rfl
  · intro e a h
    unfold best_rdp_epsilon best_from_curve at h
    by_cases hguard : delta ≤ 0 ∨ 1 ≤ delta
    · rw [if_pos hguard] at h
      cases h
    · rw [if_neg hguard] at h
      push_neg at hguard
      refine ⟨⟨hguard.1, hguard.2⟩, ?_, ?_⟩
      · rcases bestLoop_mem logTerm _ none e a h with hacc | hex
        · cases hacc
        · exact hex
      · exact (bestLoop_min logTerm _ none e a h).1
  · intro lt
    with_unfolding_all rfl

/-- Witness for C9 at the claim's concrete instance (with
`logTerm = 100` standing in for `log(1e6)`). -/
theorem best_rdp_epsilon_minimises_witness :
    ((0 : ℚ) < 1/1000000 ∧ (1/1000000 : ℚ) < 1) ∧
    (∃ v, ((2 : ℚ), v) ∈ spent_rdp
        [{ metric := "mau", day := "2025-10-09", period := "2025-10",
           alpha := 2, eps := 1/4 }] "mau" ⟨2025, 10, 9⟩ [] ∧ (1 : ℚ) < 2 ∧
        (1/4 + 100 / (2 - 1) : ℚ) = v + 100 / (2 - 1)) ∧
    ∀ p ∈ spent_rdp
        [{ metric := "mau", day := "2025-10-09", period := "2025-10",
           alpha := 2, eps := 1/4 }] "mau" ⟨2025, 10, 9⟩ [], 1 < p.1 →
      (1/4 + 100 / (2 - 1) : ℚ) ≤ p.2 + 100 / (p.1 - 1) :=
  (best_rdp_epsilon_minimises
    [{ metric := "mau", day := "2025-10-09", period := "2025-10",
       alpha := 2, eps := 1/4 }] "mau" ⟨2025, 10, 9⟩ (1/1000000) 100 []).2.1
    (1/4 + 100 / (2 - 1)) 2 (by with_unfolding_all rfl)

theorem heap_foldl_markDirty (days : List String) (st : PipeState) :
    (days.foldl markDirtySt st).heap = st.heap := by
  induction days generalizing st with
  | nil => rfl
  | cons d rest ih => simpa using ih (markDirtySt st d)

theorem heapGet_append_lt (h : List (List String)) (v : List String) (i : Nat)
    (hi : i < h.length) : heapGet (h ++ [v]) i = heapGet h i := by
  unfold heapGet
  rw [List.getD_eq_getElem?_getD, List.getD_eq_getElem?_getD,
    List.getElem?_append_left hi]

theorem heapGet_set_ne (h : List (List String)) (n : Nat) (v : List String)
    (i : Nat) (hne : i ≠ n) : heapGet (heapSet h n v) i = heapGet h i := by
  unfold heapGet heapSet
  rw [List.getD_eq_getElem?_getD, List.getD_eq_getElem?_getD,
    List.getElem?_set_ne (fun hh => hne hh.symm)]

/-- C10: for a `-` event whose metadata maps `days` to a non-empty list
not containing the event's day in ISO form, `ingest_event` appends that
day to the caller's own list object (the heap cell is mutated in place)
and the constructed `ErasureEntry` object aliases that same list (same
reference); for `+` events the heap is untouched, and for `-` events
without a `days` entry every pre-existing caller object is unchanged. -/
theorem ingest_event_metadata_mutation (cfg : Config) (st : PipeState) :
    (∀ (e : Event) (r : Nat), e.op = "-" → e.metadataDays = some r →
      heapGet st.heap r ≠ [] → isoformat e.day ∉ heapGet st.heap r →
      (ingest_event cfg st e).2.1.heap =
        heapSet st.heap r (heapGet st.heap r ++ [isoformat e.day]) ∧
      (ingest_event cfg st e).2.2 =
        some { user_root := hash_user_root cfg e.user_id, daysRef := r,
               pending := true }) ∧
    (∀ e : Event, e.op = "+" → (ingest_event cfg st e).2.1.heap = st.heap) ∧
    (∀ e : Event, e.op = "-" → e.metadataDays = none →
      ∀ i, i < st.heap.length →
        heapGet (ingest_event cfg st e).2.1.heap i = heapGet st.heap i) := by
  refine ⟨?_, ?_, ?_⟩
  · rintro ⟨uid, op, day, md⟩ r hop hmd h3 h4
    simp only at hop hmd
    subst hop
    subst hmd
    have h4' : isoformat day ∉ heapGet st.heap r := h4
    unfold ingest_event
    rw [if_neg (by simp)]
    rw [if_pos rfl]
    dsimp only [markDirtySt]
    rw [if_neg h3, if_neg h4']
    constructor
    · rw [heap_foldl_markDirty]
    · rfl
  · rintro ⟨uid, op, day, md⟩ hop
    simp only at hop
    subst hop
    unfold ingest_event
    rw [if_neg (by simp)]
    rw [if_neg (by simp)]
    rfl
  · rintro ⟨uid, op, day, md⟩ hop hmd i hi
    simp only at hop hmd
    subst hop
    subst hmd
    unfold ingest_event
    rw [if_neg (by simp)]
    rw [if_pos rfl]
    dsimp only [heapAlloc, markDirtySt]
    split_ifs with hmem
    · rw [heap_foldl_markDirty]
      exact heapGet_append_lt st.heap _ i hi
    · rw [heap_foldl_markDirty]
      rw [heapGet_set_ne _ _ _ _ (Nat.ne_of_lt hi)]
      exact heapGet_append_lt st.heap _ i hi

/-- Witness for C10 at a concrete state and deletion event. -/
theorem ingest_event_metadata_mutation_witness :
    (ingest_event defaultConfig (initState [["2025-10-01"]])
        { user_id := "alice", op := "-", day := oct2,
          metadataDays := some 0 }).2.1.heap =
      heapSet (initState [["2025-10-01"]]).heap 0
        (heapGet (initState [["2025-10-01"]]).heap 0 ++ [isoformat oct2]) ∧
    (ingest_event defaultConfig (initState [["2025-10-01"]])
        { user_id := "alice", op := "-", day := oct2,
          metadataDays := some 0 }).2.2 =
      some { user_root := hash_user_root defaultConfig "alice", daysRef := 0,
             pending := true } :=
  (ingest_event_metadata_mutation defaultConfig (initState [["2025-10-01"]])).1
    { user_id := "alice", op := "-", day := oct2, metadataDays := some 0 } 0
    rfl rfl (by decide) (by decide)
